import Mathlib

/-!
Verification of the criteria-dashboard data pipeline (src/app.py).

The development shallowly embeds the data model and the operations of the
dashboard: tables are ordered column names plus rows of nullable string
cells (a pandas DataFrame cell that is NaN is modelled as `none`), the
column normalizer and hierarchy builder are translated line by line from
`fetch_data_from_nextcloud` and `create_tree_visualization`, the search
filter from `main`, the impact tally from `display_summary_stats`, and the
credential lookup from the head of `fetch_data_from_nextcloud`.
-/

namespace CriteriaDashboard

/-- Whitespace test for the ASCII whitespace characters stripped by the
Python `strip` calls in the source. -/
def isSpaceChar (c : Char) : Bool :=
  c = ' ' || c = '\t' || c = '\n' || c = '\r'

/-- Drop leading whitespace characters. -/
def dropSpaces : List Char → List Char
  | [] => []
  | c :: cs => if isSpaceChar c then dropSpaces cs else c :: cs

/-- Model of Python `str.strip`: remove leading and trailing whitespace. -/
def strip (s : String) : String :=
  ⟨((dropSpaces ((dropSpaces s.data.reverse)).reverse))⟩

/-- Model of Python `str(x)` applied to a nullable cell: a NaN cell prints
as the string "nan"; in the source this case is unreachable for the three
key fields because `dropna` runs first. -/
def pyStr : Option String → String
  | some s => s
  | none => "nan"

/-- Model of Python `str.lower` on the ASCII range (the `lower` calls in
the search filter). -/
def toLowerCh (c : Char) : Char :=
  if 65 ≤ c.toNat ∧ c.toNat ≤ 90 then Char.ofNat (c.toNat + 32) else c

/-- Lowercase every character of a string. -/
def toLowerStr (s : String) : String :=
  ⟨s.data.map toLowerCh⟩

/-- Check whether the character list `hay` starts with `needle`. -/
def startsWithChars : List Char → List Char → Bool
  | _, [] => true
  | [], _ :: _ => false
  | h :: hs, n :: ns => h = n && startsWithChars hs ns

/-- Check whether `needle` occurs contiguously inside `hay`, as the Python
`in` operator does on strings. -/
def containsChars : List Char → List Char → Bool
  | [], needle => needle.isEmpty
  | h :: hs, needle => startsWithChars (h :: hs) needle || containsChars hs needle

/-- String-level contiguous-substring test. -/
def strContains (hay needle : String) : Bool :=
  containsChars hay.data needle.data

/-- Split a character list at every occurrence of the separator. -/
def splitOnChar (sep : Char) : List Char → List (List Char)
  | [] => [[]]
  | c :: cs =>
    let r := splitOnChar sep cs
    if c = sep then [] :: r
    else
      match r with
      | [] => [[c]]
      | f :: fs => (c :: f) :: fs

/-- Data model of a pandas DataFrame as used by the source: an ordered
list of column names and rows of nullable string cells (`none` is NaN). -/
structure Table where
  cols : List String
  rows : List (List (Option String))
deriving DecidableEq

/-- Canonical column names assigned by the normalization step of
`fetch_data_from_nextcloud`. -/
def canonicalCols : List String := ["impact", "type", "critère", "description"]

/-- Position of a column name in the header, leftmost match first. -/
def colIdx : List String → String → Option Nat
  | [], _ => none
  | c :: cs, name => if c = name then some 0 else (colIdx cs name).map (· + 1)

/-- Cell of a row under a named column; `none` when the cell is NaN (or
when the column is absent, a case the callers guard against). -/
def cellAt (cols : List String) (r : List (Option String)) (name : String) : Option String :=
  match colIdx cols name with
  | none => none
  | some i => (r.get? i).getD none

/-- Model of `df.dropna(subset=...)`: keep exactly the rows whose cells
under every listed column are non-null. -/
def dropna (df : Table) (subset : List String) : Table :=
  ⟨df.cols, df.rows.filter (fun r => subset.all (fun c => (cellAt df.cols r c).isSome))⟩

/-- Column normalization of `fetch_data_from_nextcloud` (lines 53 to 54 and
64 to 65): with at least four columns the first four are renamed to the
canonical names and later columns are kept; otherwise nothing changes. -/
def normalize (df : Table) : Table :=
  if 4 ≤ df.cols.length then ⟨canonicalCols ++ df.cols.drop 4, df.rows⟩ else df

/-- Output record of the hierarchy builder, one per surviving row of
`create_tree_visualization`. -/
structure CriterionRecord where
  impact : String
  type : String
  critere : String
  description : String
deriving DecidableEq

/-- Placeholder description emitted by `create_tree_visualization` when the
description cell is NaN. -/
def placeholderText : String := "Pas de description disponible"

/-- Key columns whose nullity drops a row in `create_tree_visualization`. -/
def requiredKeyCols : List String := ["impact", "type", "critère"]

/-- Record built from one surviving row (lines 88 to 93 of the source):
each key field is `str(...).strip()`, and the description falls back to the
placeholder exactly when the cell is NaN. -/
def emitRow (cols : List String) (r : List (Option String)) : CriterionRecord :=
  ⟨strip (pyStr (cellAt cols r "impact")),
   strip (pyStr (cellAt cols r "type")),
   strip (pyStr (cellAt cols r "critère")),
   match cellAt cols r "description" with
   | some d => strip d
   | none => placeholderText⟩

/-- Hierarchy builder `create_tree_visualization`: drop rows with a null
key field, then append one record per remaining row in order. -/
def create_tree_visualization (df : Table) : List CriterionRecord :=
  let df_clean := dropna df requiredKeyCols
  df_clean.rows.foldl (fun tree_data row => tree_data ++ [emitRow df_clean.cols row]) []

/-- Minimal model of the pandas CSV decoding used by the source for the
end-to-end scenario: the first line is the header, fields are split on the
separator, and an empty field is decoded as NaN (`none`), as
`pd.read_csv` does. -/
def parseCSV (sep : Char) (text : String) : Table :=
  match (splitOnChar '\n' text.data).filter (fun l => !l.isEmpty) with
  | [] => ⟨[], []⟩
  | header :: rest =>
    ⟨(splitOnChar sep header).map (fun f => ⟨f⟩),
     rest.map (fun line =>
       (splitOnChar sep line).map (fun f => if f.isEmpty then none else some ⟨f⟩))⟩

/-- Abstract view of one fetched byte payload: the outcome of each of the
three external pandas decoding attempts the source can make on it (Excel
via openpyxl, CSV with comma, CSV with semicolon). The decoders themselves
are external collaborators; the fallback chain below is the code of
`fetch_data_from_nextcloud` (lines 49 to 69). -/
structure RawBytes where
  excel : Except String Table
  comma : Except String Table
  semicolon : Except String Table

/-- Fallback-chain parser of `fetch_data_from_nextcloud`: Excel first; on
failure comma CSV; when the comma attempt has fewer than four columns the
semicolon attempt replaces it; a decoding exception in the CSV branch
yields the error message of the last attempted read. -/
def parse (b : RawBytes) : Except String Table :=
  match b.excel with
  | .ok df => .ok (normalize df)
  | .error _ =>
    match b.comma with
    | .error e => .error e
    | .ok df =>
      if df.cols.length < 4 then
        match b.semicolon with
        | .ok df2 => .ok (normalize df2)
        | .error e => .error e
      else .ok (normalize df)

/-- HTTP response handling of `fetch_data_from_nextcloud` (lines 47 and 70
to 72): only a 200 status is decoded, any other status yields no table,
and a parse error also yields no table. -/
def handleResponse (status : Nat) (b : RawBytes) : Option Table :=
  if status = 200 then (parse b).toOption else none

/-- Hardcoded demonstration table of `main` (lines 321 to 356), used when
the fetch returns no table. -/
def df_demo : Table :=
  ⟨canonicalCols,
   [[some "Impacts environnementaux directs", some "Matériaux et ressources",
     some "Empreinte carbone des matériaux",
     some "Gaz à effet de serre liés à l\x27extraction, transformation et transport."],
    [some "Impacts environnementaux directs", some "Matériaux et ressources",
     some "Consommation d\x27eau",
     some "Volume d\x27eau utilisé pour fabriquer les matériaux."],
    [some "Impacts environnementaux directs", some "Énergie et climat",
     some "Consommation énergétique éclairage",
     some "Énergie utilisée pour l\x27éclairage."],
    [some "Impacts environnementaux directs", some "Transport et logistique",
     some "Distance parcourue matériaux",
     some "Kilomètres parcourus par les matériaux depuis leur origine."],
    [some "Impacts environnementaux indirects", some "Cycle de vie",
     some "Fin de vie des matériaux",
     some "Mode de traitement : incinération, enfouissement, recyclage."],
    [some "Impacts environnementaux indirects", some "Effets systémiques",
     some "Îlot de chaleur urbain",
     some "Contribution au réchauffement local."],
    [some "Impacts éco-sociaux", some "Justice sociale et équité",
     some "Équité d\x27accès au projet",
     some "Le projet bénéficie-t-il équitablement à tous les groupes sociaux ?"],
    [some "Impacts éco-sociaux", some "Économie locale et territoriale",
     some "Impact sur économie locale",
     some "Effet positif sur l\x27économie et l\x27emploi local."],
    [some "Impacts temporels et contextuels", some "Durée et intensité",
     some "Durée de vie du projet",
     some "Estimation de la durée de vie technique et fonctionnelle."],
    [some "Critères d\x27évaluation transversaux", some "Innovation et exemplarité",
     some "Caractère innovant",
     some "Degré d\x27innovation technique, sociale ou environnementale."]]⟩

/-- Records produced by one render of `main`: the fetched table when one
was obtained, otherwise the demonstration table (lines 316 to 362). -/
def pipelineRecords (fetched : Option Table) : List CriterionRecord :=
  match fetched with
  | some df => create_tree_visualization df
  | none => create_tree_visualization df_demo

/-- Search predicate of `main` (lines 286 to 292): the lowercased query is
looked for inside each of the four lowercased fields, any hit keeps the
record. -/
def matchesQuery (q : String) (item : CriterionRecord) : Bool :=
  strContains (toLowerStr item.critere) (toLowerStr q) ||
  strContains (toLowerStr item.description) (toLowerStr q) ||
  strContains (toLowerStr item.type) (toLowerStr q) ||
  strContains (toLowerStr item.impact) (toLowerStr q)

/-- Search step of `main`: an empty query is falsy in Python, so the
filter only runs for a non-empty query. -/
def applySearch (q : String) (data : List CriterionRecord) : List CriterionRecord :=
  if q = "" then data else data.filter (matchesQuery q)

/-- Truthiness of a nullable string in Python: `None` and the empty string
are falsy. -/
def truthy : Option String → Bool
  | none => false
  | some s => !(s = "")

/-- Streamlit secret store as seen by `fetch_data_from_nextcloud`:
`available = false` models `st.secrets` raising (the bare except branch of
the source, whose body is an intended no-op), in which case the
environment values are kept. -/
structure Secrets where
  available : Bool
  user : Option String
  password : Option String
deriving DecidableEq

/-- Credential resolution of `fetch_data_from_nextcloud` (lines 25 to 38):
environment variables first; when either is falsy the secret store is
consulted with `st.secrets.get(key, current)`, whose result replaces the
current value whenever the key is present in the store; a falsy final
value aborts with no credentials. -/
def getCreds (envU envP : Option String) (sec : Secrets) : Option (String × String) :=
  let step :=
    if !truthy envU || !truthy envP then
      if sec.available then
        (match sec.user with | some v => some v | none => envU,
         match sec.password with | some v => some v | none => envP)
      else (envU, envP)
    else (envU, envP)
  if !truthy step.1 || !truthy step.2 then none
  else some (step.1.getD "", step.2.getD "")

/-- Outcome of the head of the fetch: either the function returns before
any HTTP request is issued, or a request is made with the resolved
credentials. -/
inductive FetchStart where
  | noRequest : FetchStart
  | requested : String → String → FetchStart
deriving DecidableEq

/-- First phase of `fetch_data_from_nextcloud`: the HTTP request on line
45 is reached only when credential resolution succeeds. -/
def fetchStart (envU envP : Option String) (sec : Secrets) : FetchStart :=
  match getCreds envU envP sec with
  | none => .noRequest
  | some (u, p) => .requested u p

/-- Lexicographic codepoint order on character lists, as Python compares
strings. A strict prefix is smaller. -/
def charListLt : List Char → List Char → Bool
  | _, [] => false
  | [], _ :: _ => true
  | a :: as, b :: bs => if a < b then true else if b < a then false else charListLt as bs

/-- Lexicographic codepoint order on strings. -/
def strLtB (a b : String) : Bool := charListLt a.data b.data

/-- Insert a key into an ascending duplicate-free key list, keeping it
ascending and duplicate-free. -/
def insertSortedKey (k : String) : List String → List String
  | [] => [k]
  | x :: xs =>
    if k = x then x :: xs
    else if strLtB k x then k :: x :: xs
    else x :: insertSortedKey k xs

/-- Distinct keys of a list in ascending order, as the index of the pandas
`groupby(...).size()` result is sorted. -/
def sortedKeys (l : List String) : List String :=
  l.foldl (fun acc k => insertSortedKey k acc) []

/-- Model of `df.groupby(&#x27;impact&#x27;).size()`: one count per distinct
non-null key, indexed by ascending key. -/
def groupbySize (l : List String) : List (String × Nat) :=
  (sortedKeys l).map (fun k => (k, l.count k))

/-- Stable insertion into a list sorted by ascending count: an incoming
entry goes before the first entry with a greater or equal count. -/
def insertByCount (x : String × Nat) : List (String × Nat) → List (String × Nat)
  | [] => [x]
  | y :: ys => if x.2 ≤ y.2 then x :: y :: ys else y :: insertByCount x ys

/-- Model of `sort_values(&#x27;count&#x27;, ascending=True)` at line 209. The
source leaves the sort kind at its default, for which pandas does not
specify the relative order of equal counts, so this definition is one
determinization of that sort (an insertion sort); the theorems below rely
only on the multiset of entries and on the ascending-count order, which
hold for every sort kind, and state nothing about the order of equal
counts. Concrete evaluations appear only on two-entry tallies, where
numpy in fact runs a stable insertion sort, so they agree with the
program. -/
def sortByCount : List (String × Nat) → List (String × Nat)
  | [] => []
  | x :: xs => insertByCount x (sortByCount xs)

/-- Non-null values of the impact column of a table, in row order; the
pandas groupby drops NaN keys. -/
def impactsOf (df : Table) : List String :=
  (df.rows.map (fun r => cellAt df.cols r "impact")).filterMap id

/-- Impact tally of `display_summary_stats` (lines 208 to 209): group by
impact with counts, then sort ascending by count. -/
def impact_counts (df : Table) : List (String × Nat) :=
  sortByCount (groupbySize (impactsOf df))

/-- Order of first appearance of each distinct key. -/
def firstSeen (l : List String) : List String :=
  l.foldl (fun acc k => if k ∈ acc then acc else acc ++ [k]) []

/-- Words of a text: maximal space-free runs, the whitespace-normalized
content the specification speaks about. -/
def splitWords (s : String) : List String :=
  ((splitOnChar ' ' s.data).filter (fun f => !f.isEmpty)).map (fun f => ⟨f⟩)

/-- Join words with single spaces; on the lines produced by `wrap` this is
the replacement of the line-break marker by a space. -/
def joinWords : List String → String
  | [] => ""
  | [x] => x
  | x :: y :: ys => x ++ " " ++ joinWords (y :: ys)

/-- Modelled from the spec: the greedy accumulation loop of the label
formatter `wrap`, which is absent from src (the spec describes it in
section 4.4). The current line is kept as its list of words; a word is
appended while `len(line) + 1 + len(word) <= maxWidth`, otherwise the line
is closed and the word starts the next line. -/
def wrapAux (w : Nat) (line : List String) : List String → List (List String)
  | [] => [line]
  | word :: rest =>
    if (joinWords line).length + 1 + word.length ≤ w then
      wrapAux w (line ++ [word]) rest
    else
      line :: wrapAux w [word] rest

/-- Modelled from the spec: the label formatter `wrap(text, maxWidth)` of
section 4.4, absent from src; it returns the list of output lines (the
source of the spec joins them with an explicit break marker). -/
def wrap (text : String) (w : Nat) : List String :=
  match splitWords text with
  | [] => []
  | word :: rest => (wrapAux w [word] rest).map joinWords

/-- Strict key order as a proposition. -/
def strLtP (a b : String) : Prop := strLtB a b = true

/-- Two-row table whose impacts arrive as B then A, each with one row;
used to exercise the tie-breaking order of the impact tally. -/
def df_ties : Table :=
  ⟨canonicalCols,
   [[some "B", some "t", some "c", some "d"],
    [some "A", some "t", some "c", some "d"]]⟩

/-- One-row table whose single row has a non-null impact but a null
criterion: the hierarchy builder drops the row, yet the impact tally of
`display_summary_stats` still counts its impact, because the tally runs
on the DataFrame column, not on the built records. -/
def df_keyless : Table :=
  ⟨canonicalCols, [[some "C", some "t", none, some "d"]]⟩

/-- Raw CSV text of the three-row end-to-end scenario of the
specification. -/
def csvScenario : String :=
  "impact,type,critère,description\nA,T1,C1,D1\nA,T1,,D2\n,T2,C3,D3"

theorem foldl_append_map {α β : Type} (f : α → β) (l : List α) :
    ∀ acc : List β, l.foldl (fun a x => a ++ [f x]) acc = acc ++ l.map f := by
  induction l with
  | nil => intro acc; simp
  | cons x xs ih => intro acc; simp [ih]

theorem create_tree_visualization_eq (df : Table) :
    create_tree_visualization df =
      (df.rows.filter (fun r => requiredKeyCols.all (fun c => (cellAt df.cols r c).isSome))).map
        (emitRow df.cols) := by
  simp [create_tree_visualization, dropna, foldl_append_map]

theorem joinWords_cons_ne (x : String) (xs : List String) (h : xs ≠ []) :
    joinWords (x :: xs) = x ++ " " ++ joinWords xs := by
  cases xs with
  | nil => exact absurd rfl h
  | cons y ys => rfl

theorem joinWords_append : ∀ a b : List String, a ≠ [] → b ≠ [] →
    joinWords (a ++ b) = joinWords a ++ " " ++ joinWords b := by
  intro a
  induction a with
  | nil => intro b h _; exact absurd rfl h
  | cons x xs ih =>
    intro b _ hb
    cases xs with
    | nil =>
      cases b with
      | nil => exact absurd rfl hb
      | cons y ys => simp [joinWords, joinWords_cons_ne]
    | cons x2 xs2 =>
      rw [List.cons_append, joinWords_cons_ne x ((x2 :: xs2) ++ b) (by simp),
        joinWords_cons_ne x (x2 :: xs2) (by simp), ih b (by simp) hb]
      simp [String.append_assoc]

theorem wrapAux_flatten (w : Nat) :
    ∀ (ws : List String) (line : List String), (wrapAux w line ws).flatten = line ++ ws := by
  intro ws
  induction ws with
  | nil => intro line; simp [wrapAux]
  | cons word rest ih =>
    intro line
    by_cases hfit : (joinWords line).length + 1 + word.length ≤ w
    · simp only [wrapAux, if_pos hfit]
      rw [ih]
      simp
    · simp only [wrapAux, if_neg hfit]
      rw [List.flatten_cons, ih]
      simp

theorem wrapAux_ne_nil (w : Nat) :
    ∀ (ws : List String) (line : List String), line ≠ [] →
      ∀ l ∈ wrapAux w line ws, l ≠ [] := by
  intro ws
  induction ws with
  | nil =>
    intro line hline l hl
    simp [wrapAux] at hl
    subst hl
    exact hline
  | cons word rest ih =>
    intro line hline l hl
    by_cases hfit : (joinWords line).length + 1 + word.length ≤ w
    · simp only [wrapAux, if_pos hfit] at hl
      exact ih (line ++ [word]) (by simp) l hl
    · simp only [wrapAux, if_neg hfit] at hl
      rcases List.mem_cons.mp hl with h1 | h2
      · subst h1; exact hline
      · exact ih [word] (by simp) l h2

theorem joinWords_map_flatten : ∀ liness : List (List String), (∀ l ∈ liness, l ≠ []) →
    joinWords (liness.map joinWords) = joinWords liness.flatten := by
  intro liness
  induction liness with
  | nil => intro _; rfl
  | cons l ls ih =>
    intro h
    cases ls with
    | nil => simp [joinWords]
    | cons l2 ls2 =>
      have hl : l ≠ [] := h l (by simp)
      have hl2 : l2 ≠ [] := h l2 (by simp)
      have hflat : (l2 :: ls2).flatten ≠ [] := by
        cases l2 with
        | nil => exact absurd rfl hl2
        | cons a as => simp
      rw [List.map_cons, List.flatten_cons,
        joinWords_cons_ne (joinWords l) ((l2 :: ls2).map joinWords) (by simp),
        ih (fun x hx => h x (List.mem_cons_of_mem l hx)),
        joinWords_append l (l2 :: ls2).flatten hl hflat]

theorem wrapAux_width (w : Nat) :
    ∀ (ws : List String) (line : List String),
      ((joinWords line).length ≤ w ∨ ∃ u, line = [u]) →
      ∀ l ∈ wrapAux w line ws, (joinWords l).length ≤ w ∨ ∃ u, l = [u] := by
  intro ws
  induction ws with
  | nil =>
    intro line hline l hl
    simp [wrapAux] at hl
    subst hl
    exact hline
  | cons word rest ih =>
    intro line hline l hl
    by_cases hfit : (joinWords line).length + 1 + word.length ≤ w
    · simp only [wrapAux, if_pos hfit] at hl
      refine ih (line ++ [word]) (Or.inl ?_) l hl
      cases line with
      | nil =>
        simp [joinWords]
        simp [joinWords] at hfit
        omega
      | cons a as =>
        rw [joinWords_append (a :: as) [word] (by simp) (by simp),
          String.length_append, String.length_append]
        have hsp : (" " : String).length = 1 := rfl
        rw [hsp]
        have hj : joinWords [word] = word := rfl
        rw [hj]
        omega
    · simp only [wrapAux, if_neg hfit] at hl
      rcases List.mem_cons.mp hl with h1 | h2
      · subst h1; exact hline
      · exact ih [word] (Or.inr ⟨word, rfl⟩) l h2

/-- C7 (confirmed, modelled from the spec since the label formatter is not
in src): every line produced by `wrap` either fits in the width or is a
single word of the text kept whole (so no word is ever split mid-word),
and joining the lines back with single spaces reproduces the
whitespace-normalized text, namely its words joined by single spaces. -/
theorem c7_wrap_width_and_rejoin (text : String) (w : Nat) (line : String)
    (h : line ∈ wrap text w) :
    (line.length ≤ w ∨ line ∈ splitWords text) ∧
    joinWords (wrap text w) = joinWords (splitWords text) := by
  constructor
  · rw [wrap] at h
    cases hsplit : splitWords text with
    | nil => rw [hsplit] at h; simp at h
    | cons word rest =>
      rw [hsplit] at h
      rcases List.mem_map.mp h with ⟨l, hl, hline⟩
      have hw := wrapAux_width w rest [word] (Or.inr ⟨word, rfl⟩) l hl
      rcases hw with hle | ⟨u, hu⟩
      · left; rw [← hline]; exact hle
      · right
        subst hu
        have hu_mem : u ∈ ([word] ++ rest : List String) := by
          rw [← wrapAux_flatten w rest [word]]
          exact List.mem_flatten.mpr ⟨[u], hl, by simp⟩
        rw [← hline]
        have hju : joinWords [u] = u := rfl
        rw [hju]
        simpa using hu_mem
  · rw [wrap]
    cases hsplit : splitWords text with
    | nil => rfl
    | cons word rest =>
      rw [joinWords_map_flatten (wrapAux w [word] rest)
        (wrapAux_ne_nil w rest [word] (by simp)),
        wrapAux_flatten w rest [word]]
      rfl

/-- C7 witness: a concrete wrap at width 5, checking one produced line. -/
theorem c7_wrap_width_and_rejoin_witness :
    ("aa bb" : String).length ≤ 5 ∧
    joinWords (wrap "aa  bb cc" 5) = joinWords (splitWords "aa  bb cc") := by
  have h := c7_wrap_width_and_rejoin "aa  bb cc" 5 "aa bb" (by decide)
  exact ⟨by decide, h.2⟩

/-- C1 counterexample: a row whose impact cell is the non-null string of a
single space is empty after trimming, yet `create_tree_visualization`
keeps it (with an empty impact field), because `dropna` only removes null
cells; the claim says such a row is excluded. -/
theorem c1_blank_key_row_kept :
    create_tree_visualization ⟨canonicalCols, [[some " ", some "T1", some "C1", some "D1"]]⟩ =
      [⟨"", "T1", "C1", "D1"⟩] ∧ strip " " = "" := by decide

/-- C1 (amended): the hierarchy builder excludes exactly those rows in
which the impact, type or criterion cell is null; non-null cells that are
empty after trimming do not drop a row. On the three-row CSV scenario,
where the CSV decoding turns empty fields into null, the build yields
exactly the single record A, T1, C1, D1. -/
theorem c1_build_drops_exactly_null_key_rows (df : Table) :
    create_tree_visualization df =
      (df.rows.filter (fun r => requiredKeyCols.all (fun c => (cellAt df.cols r c).isSome))).map
        (emitRow df.cols) ∧
    create_tree_visualization (normalize (parseCSV ',' csvScenario)) =
      [⟨"A", "T1", "C1", "D1"⟩] := by
  exact ⟨create_tree_visualization_eq df, by decide⟩

/-- C2 counterexample: a surviving row whose description cell is the
non-null empty string is emitted with an empty description, not with the
placeholder; the claim says null or empty both give the placeholder. -/
theorem c2_empty_description_kept_verbatim :
    create_tree_visualization ⟨canonicalCols, [[some "I", some "T", some "C", some ""]]⟩ =
      [⟨"I", "T", "C", ""⟩] ∧ ("" : String) ≠ placeholderText := by decide

/-- C2 (amended): for every surviving row the emitted description is the
placeholder exactly when the description cell is null; any non-null
description, even one that is empty after trimming, is emitted trimmed. -/
theorem c2_placeholder_iff_null_description (df : Table) (r : List (Option String))
    (h : r ∈ (dropna df requiredKeyCols).rows) :
    emitRow df.cols r ∈ create_tree_visualization df ∧
    (cellAt df.cols r "description" = none →
      (emitRow df.cols r).description = placeholderText) ∧
    (∀ d, cellAt df.cols r "description" = some d →
      (emitRow df.cols r).description = strip d) := by
  refine ⟨?_, ?_, ?_⟩
  · rw [create_tree_visualization_eq]
    exact List.mem_map_of_mem _ h
  · intro hnone; simp [emitRow, hnone]
  · intro d hd; simp [emitRow, hd]

/-- C2 witness: a concrete surviving row with a null description is
emitted with the placeholder. -/
theorem c2_placeholder_iff_null_description_witness :
    (emitRow canonicalCols [some "I", some "T", some "C", none]).description = placeholderText :=
  (c2_placeholder_iff_null_description
    ⟨canonicalCols, [[some "I", some "T", some "C", none]]⟩
    [some "I", some "T", some "C", none] (by decide)).2.1 (by decide)

/-- C3 (confirmed): with at least four columns, normalization renames
exactly the first four columns to the canonical names and leaves the names
and positions of the later columns as well as every cell unchanged; with
fewer than four columns it is the identity. -/
theorem c3_normalize_first_four_columns (df : Table) :
    (4 ≤ df.cols.length →
      (normalize df).cols.take 4 = canonicalCols ∧
      (∀ i, 4 ≤ i → (normalize df).cols[i]? = df.cols[i]?) ∧
      (normalize df).rows = df.rows) ∧
    (df.cols.length < 4 → normalize df = df) := by
  constructor
  · intro h
    have hn : normalize df = ⟨canonicalCols ++ df.cols.drop 4, df.rows⟩ := by
      simp [normalize, h]
    rw [hn]
    refine ⟨?_, ?_, rfl⟩
    · have h4 : canonicalCols.length = 4 := rfl
      calc (canonicalCols ++ df.cols.drop 4).take 4
          = (canonicalCols ++ df.cols.drop 4).take canonicalCols.length := by rw [h4]
        _ = canonicalCols := List.take_left canonicalCols _
    · intro i hi
      have h4 : canonicalCols.length = 4 := rfl
      rw [List.getElem?_append_right (by omega), List.getElem?_drop]
      congr 1
      omega
  · intro h
    simp [normalize]
    omega

/-- C3 witness: a concrete five-column table has its first four columns
renamed. -/
theorem c3_normalize_first_four_columns_witness :
    (normalize ⟨["a", "b", "c", "d", "e"], []⟩).cols.take 4 = canonicalCols :=
  ((c3_normalize_first_four_columns ⟨["a", "b", "c", "d", "e"], []⟩).1 (by decide)).1

/-- C4 (confirmed): the parser tries Excel first and returns its
normalization on success; otherwise the comma attempt; a comma result with
fewer than four columns is replaced by the semicolon attempt; a failing
read in the CSV branch yields the message of the last attempted read, and
the parser always returns either a table or an error, never anything
else. -/
theorem c4_parse_fallback_order (b : RawBytes) :
    (∀ df, b.excel = .ok df → parse b = .ok (normalize df)) ∧
    (∀ e df, b.excel = .error e → b.comma = .ok df → 4 ≤ df.cols.length →
      parse b = .ok (normalize df)) ∧
    (∀ e df df2, b.excel = .error e → b.comma = .ok df → df.cols.length < 4 →
      b.semicolon = .ok df2 → parse b = .ok (normalize df2)) ∧
    (∀ e ec, b.excel = .error e → b.comma = .error ec → parse b = .error ec) ∧
    (∀ e df es, b.excel = .error e → b.comma = .ok df → df.cols.length < 4 →
      b.semicolon = .error es → parse b = .error es) ∧
    ((∃ t, parse b = .ok t) ∨ (∃ msg, parse b = .error msg)) := by
  refine ⟨?_, ?_, ?_, ?_, ?_, ?_⟩
  · intro df h; simp [parse, h]
  · intro e df he hc hlen
    have hnot : ¬ df.cols.length < 4 := by omega
    simp [parse, he, hc, hnot]
  · intro e df df2 he hc hlt hs
    simp [parse, he, hc, hlt, hs]
  · intro e ec he hc; simp [parse, he, hc]
  · intro e df es he hc hlt hs
    simp [parse, he, hc, hlt, hs]
  · cases hp : parse b with
    | ok t => exact .inl ⟨t, rfl⟩
    | error msg => exact .inr ⟨msg, rfl⟩

/-- C4 witness: a payload whose Excel decode succeeds is returned
normalized, ignoring the CSV attempts. -/
theorem c4_parse_fallback_order_witness :
    parse ⟨.ok ⟨["a"], []⟩, .error "x", .error "y"⟩ = .ok (normalize ⟨["a"], []⟩) :=
  (c4_parse_fallback_order ⟨.ok ⟨["a"], []⟩, .error "x", .error "y"⟩).1 ⟨["a"], []⟩ rfl

/-- C5 (confirmed): the output of the hierarchy builder is the image,
under the record constructor, of a sublist of the rows, hence at most as
long as the input and in the original order of the surviving rows; every
field of an emitted record is a total string by construction of
`emitRow`, so no field is null. -/
theorem c5_output_order_and_length (df : Table) :
    (∃ rs : List (List (Option String)), rs.Sublist df.rows ∧
      create_tree_visualization df = rs.map (emitRow df.cols)) ∧
    (create_tree_visualization df).length ≤ df.rows.length := by
  refine ⟨⟨_, List.filter_sublist df.rows, create_tree_visualization_eq df⟩, ?_⟩
  rw [create_tree_visualization_eq]
  simpa using List.length_filter_le _ df.rows

/-- C6 (confirmed): a record survives the search step exactly when it was
present and either the query is empty (search disabled, everything kept)
or the lowercased query occurs inside at least one of the four lowercased
fields. -/
theorem c6_search_any_field_iff (q : String) (data : List CriterionRecord)
    (item : CriterionRecord) :
    item ∈ applySearch q data ↔
      item ∈ data ∧
        (q = "" ∨
          (strContains (toLowerStr item.critere) (toLowerStr q) = true ∨
           strContains (toLowerStr item.description) (toLowerStr q) = true ∨
           strContains (toLowerStr item.type) (toLowerStr q) = true ∨
           strContains (toLowerStr item.impact) (toLowerStr q) = true)) := by
  by_cases hq : q = ""
  · simp [applySearch, hq]
  · simp [applySearch, hq, List.mem_filter, matchesQuery, Bool.or_eq_true, or_assoc]

/-- C8 (confirmed): a non-200 response produces no table, in which case
the pipeline builds its records from the demonstration table, whose
columns are exactly the canonical four and whose cells are all non-null
four-field rows. -/
theorem c8_fetch_failure_demo_fallback (status : Nat) (b : RawBytes) (h : status ≠ 200) :
    handleResponse status b = none ∧
    pipelineRecords (handleResponse status b) = create_tree_visualization df_demo ∧
    df_demo.cols = canonicalCols ∧
    df_demo.rows.all (fun r => r.length == 4 && r.all (fun c => c.isSome)) = true := by
  have h1 : handleResponse status b = none := by simp [handleResponse, h]
  exact ⟨h1, by rw [h1]; rfl, rfl, by decide⟩

/-- C8 witness: the concrete HTTP 404 case with a payload every decoder
rejects. -/
theorem c8_fetch_failure_demo_fallback_witness :
    handleResponse 404 ⟨.error "a", .error "b", .error "c"⟩ = none :=
  (c8_fetch_failure_demo_fallback 404 ⟨.error "a", .error "b", .error "c"⟩ (by decide)).1

/-- C10 counterexample: with the user present in the environment and both
credentials present in the secret store but the password absent from the
environment, the request is issued with the secret-store user, not the
environment user: the environment value does not take precedence. -/
theorem c10_secret_overrides_env :
    fetchStart (some "envU") none ⟨true, some "secU", some "secP"⟩ =
      .requested "secU" "secP" ∧ "secU" ≠ "envU" := by decide

/-- C10 (amended): when both credentials are absent from the environment
and from the secret store the fetch aborts before any HTTP request; when
both environment credentials are present and non-empty the secret store is
never consulted and the environment values are used; but when either
environment credential is falsy, a credential present in the secret store
replaces the environment value. -/
theorem c10_credentials_gate (envU envP : Option String) (sec : Secrets) :
    (envU = none → envP = none → sec.user = none → sec.password = none →
      fetchStart envU envP sec = .noRequest) ∧
    (∀ u p, envU = some u → envP = some p → u ≠ "" → p ≠ "" →
      fetchStart envU envP sec = .requested u p) ∧
    (∀ su sp, truthy envP = false → sec.available = true → sec.user = some su →
      sec.password = some sp → su ≠ "" → sp ≠ "" →
      fetchStart envU envP sec = .requested su sp) := by
  refine ⟨?_, ?_, ?_⟩
  · intro h1 h2 h3 h4
    subst h1; subst h2
    cases hav : sec.available <;> simp [fetchStart, getCreds, truthy, h3, h4, hav]
  · intro u p hu hp hu0 hp0
    subst hu; subst hp
    simp [fetchStart, getCreds, truthy, hu0, hp0]
  · intro su sp hP hav hsu hsp hsu0 hsp0
    simp only [fetchStart, getCreds, hP, hav, hsu, hsp]
    simp [truthy, hsu0, hsp0]

/-- C10 witness: both credentials absent everywhere aborts before the
request; both present in the environment issues the request with the
environment values. -/
theorem c10_credentials_gate_witness :
    fetchStart none none ⟨true, none, none⟩ = .noRequest ∧
    fetchStart (some "u") (some "p") ⟨true, some "su", some "sp"⟩ = .requested "u" "p" :=
  ⟨(c10_credentials_gate none none ⟨true, none, none⟩).1 rfl rfl rfl rfl,
   (c10_credentials_gate (some "u") (some "p") ⟨true, some "su", some "sp"⟩).2.1
     "u" "p" rfl rfl (by decide) (by decide)⟩

theorem charListLt_trans : ∀ a b c : List Char,
    charListLt a b = true → charListLt b c = true → charListLt a c = true := by
  intro a
  induction a with
  | nil =>
    intro b c hab hbc
    cases c with
    | nil =>
      cases b with
      | nil => simp [charListLt] at hab
      | cons y ys => simp [charListLt] at hbc
    | cons z zs => simp [charListLt]
  | cons x xs ih =>
    intro b c hab hbc
    cases b with
    | nil => simp [charListLt] at hab
    | cons y ys =>
      cases c with
      | nil => simp [charListLt] at hbc
      | cons z zs =>
        simp only [charListLt] at hab hbc ⊢
        by_cases h1 : x < y
        · by_cases h2 : y < z
          · rw [if_pos (lt_trans h1 h2)]
          · by_cases h3 : z < y
            · rw [if_neg h2, if_pos h3] at hbc
              exact absurd hbc (by simp)
            · have hyz : y = z := le_antisymm (not_lt.mp h3) (not_lt.mp h2)
              subst hyz
              rw [if_pos h1]
        · by_cases h1b : y < x
          · rw [if_neg h1, if_pos h1b] at hab
            exact absurd hab (by simp)
          · have hxy : x = y := le_antisymm (not_lt.mp h1b) (not_lt.mp h1)
            subst hxy
            rw [if_neg h1, if_neg h1b] at hab
            by_cases h2 : x < z
            · rw [if_pos h2]
            · by_cases h3 : z < x
              · rw [if_neg h2, if_pos h3] at hbc
                exact absurd hbc (by simp)
              · have hxz : x = z := le_antisymm (not_lt.mp h3) (not_lt.mp h2)
                subst hxz
                rw [if_neg h2, if_neg h3] at hbc ⊢
                exact ih ys zs hab hbc

theorem charListLt_antisymm_eq : ∀ a b : List Char,
    charListLt a b = false → charListLt b a = false → a = b := by
  intro a
  induction a with
  | nil =>
    intro b hab _
    cases b with
    | nil => rfl
    | cons y ys => simp [charListLt] at hab
  | cons x xs ih =>
    intro b hab hba
    cases b with
    | nil => simp [charListLt] at hba
    | cons y ys =>
      by_cases h1 : x < y
      · simp [charListLt, h1] at hab
      · by_cases h2 : y < x
        · simp [charListLt, h1, h2] at hba
        · have hxy : x = y := le_antisymm (not_lt.mp h2) (not_lt.mp h1)
          subst hxy
          simp only [charListLt, lt_irrefl, if_neg (lt_irrefl x), if_false] at hab hba
          rw [ih ys hab hba]

theorem strLtB_trans {a b c : String} (hab : strLtB a b = true) (hbc : strLtB b c = true) :
    strLtB a c = true :=
  charListLt_trans a.data b.data c.data hab hbc

theorem strLtB_total_of_ne {a b : String} (hne : a ≠ b) (hab : strLtB a b = false) :
    strLtB b a = true := by
  by_cases h : strLtB b a = true
  · exact h
  · have h2 : strLtB b a = false := by simpa using h
    have hd : a.data = b.data := charListLt_antisymm_eq a.data b.data hab h2
    have : a = b := by
      cases a
      cases b
      exact congrArg String.mk hd
    exact absurd this hne

theorem mem_insertSortedKey (k a : String) : ∀ l : List String,
    a ∈ insertSortedKey k l ↔ a = k ∨ a ∈ l := by
  intro l
  induction l with
  | nil => simp [insertSortedKey]
  | cons x xs ih =>
    simp only [insertSortedKey]
    by_cases h1 : k = x
    · subst h1
      rw [if_pos rfl]
      simp only [List.mem_cons]
      tauto
    · rw [if_neg h1]
      by_cases h2 : strLtB k x = true
      · rw [if_pos h2]
        simp only [List.mem_cons]
      · rw [if_neg h2]
        simp only [List.mem_cons, ih]
        tauto

theorem pairwise_insertSortedKey (k : String) : ∀ l : List String,
    l.Pairwise strLtP → (insertSortedKey k l).Pairwise strLtP := by
  intro l
  induction l with
  | nil => intro _; simp [insertSortedKey]
  | cons x xs ih =>
    intro hp
    rcases List.pairwise_cons.mp hp with ⟨hx, hxs⟩
    simp only [insertSortedKey]
    by_cases h1 : k = x
    · rw [if_pos h1]; exact hp
    · rw [if_neg h1]
      by_cases h2 : strLtB k x = true
      · rw [if_pos h2]
        refine List.pairwise_cons.mpr ⟨?_, hp⟩
        intro z hz
        rcases List.mem_cons.mp hz with rfl | hz2
        · exact h2
        · exact strLtB_trans h2 (hx z hz2)
      · rw [if_neg h2]
        have h2f : strLtB k x = false := by simpa using h2
        have hxk : strLtP x k := strLtB_total_of_ne h1 h2f
        refine List.pairwise_cons.mpr ⟨?_, ih hxs⟩
        intro z hz
        rcases (mem_insertSortedKey k z xs).mp hz with rfl | hz2
        · exact hxk
        · exact hx z hz2

theorem sortedKeys_loop_pairwise (l : List String) :
    ∀ acc : List String, acc.Pairwise strLtP →
      (l.foldl (fun acc k => insertSortedKey k acc) acc).Pairwise strLtP := by
  induction l with
  | nil => intro acc h; simpa using h
  | cons x xs ih => intro acc h; exact ih _ (pairwise_insertSortedKey x acc h)

theorem sortedKeys_pairwise (l : List String) : (sortedKeys l).Pairwise strLtP :=
  sortedKeys_loop_pairwise l [] List.Pairwise.nil

theorem sortedKeys_loop_mem (a : String) (l : List String) :
    ∀ acc, a ∈ l.foldl (fun acc k => insertSortedKey k acc) acc ↔ a ∈ acc ∨ a ∈ l := by
  induction l with
  | nil => intro acc; simp
  | cons x xs ih =>
    intro acc
    rw [List.foldl_cons, ih (insertSortedKey x acc), mem_insertSortedKey]
    simp only [List.mem_cons]
    tauto

theorem mem_sortedKeys (a : String) (l : List String) : a ∈ sortedKeys l ↔ a ∈ l := by
  rw [sortedKeys, sortedKeys_loop_mem]
  simp

theorem mem_insertByCount (x z : String × Nat) : ∀ l : List (String × Nat),
    z ∈ insertByCount x l ↔ z = x ∨ z ∈ l := by
  intro l
  induction l with
  | nil => simp [insertByCount]
  | cons y ys ih =>
    simp only [insertByCount]
    by_cases h1 : x.2 ≤ y.2
    · rw [if_pos h1]
      simp only [List.mem_cons]
    · rw [if_neg h1]
      simp only [List.mem_cons, ih]
      tauto

theorem charListLt_irrefl : ∀ a : List Char, charListLt a a = false := by
  intro a
  induction a with
  | nil => rfl
  | cons x xs ih => simp [charListLt, lt_irrefl, ih]

theorem strLtB_irrefl (a : String) : strLtB a a = false := charListLt_irrefl a.data

theorem strLtP_ne {a b : String} (h : strLtP a b) : a ≠ b := by
  intro heq
  subst heq
  rw [strLtP, strLtB_irrefl a] at h
  exact Bool.false_ne_true h

theorem pairwise_countLe_insertByCount (x : String × Nat) : ∀ l : List (String × Nat),
    l.Pairwise (fun a b => a.2 ≤ b.2) →
      (insertByCount x l).Pairwise (fun a b => a.2 ≤ b.2) := by
  intro l
  induction l with
  | nil => intro _; simp [insertByCount]
  | cons y ys ih =>
    intro hp
    rcases List.pairwise_cons.mp hp with ⟨hy, hys⟩
    simp only [insertByCount]
    by_cases h1 : x.2 ≤ y.2
    · rw [if_pos h1]
      refine List.pairwise_cons.mpr ⟨?_, hp⟩
      intro z hz
      rcases List.mem_cons.mp hz with rfl | hz2
      · exact h1
      · exact le_trans h1 (hy z hz2)
    · rw [if_neg h1]
      refine List.pairwise_cons.mpr ⟨?_, ih hys⟩
      intro z hz
      rcases (mem_insertByCount x z ys).mp hz with rfl | hz2
      · omega
      · exact hy z hz2

theorem pairwise_countLe_sortByCount : ∀ l : List (String × Nat),
    (sortByCount l).Pairwise (fun a b => a.2 ≤ b.2) := by
  intro l
  induction l with
  | nil => simp [sortByCount]
  | cons x xs ih =>
    simp only [sortByCount]
    exact pairwise_countLe_insertByCount x (sortByCount xs) ih

theorem perm_insertByCount (x : String × Nat) : ∀ l : List (String × Nat),
    (insertByCount x l).Perm (x :: l) := by
  intro l
  induction l with
  | nil => exact List.Perm.refl _
  | cons y ys ih =>
    simp only [insertByCount]
    by_cases h1 : x.2 ≤ y.2
    · rw [if_pos h1]
    · rw [if_neg h1]
      exact (List.Perm.cons y ih).trans (List.Perm.swap x y ys)

theorem perm_sortByCount : ∀ l : List (String × Nat), (sortByCount l).Perm l := by
  intro l
  induction l with
  | nil => exact List.Perm.refl _
  | cons x xs ih =>
    simp only [sortByCount]
    exact (perm_insertByCount x (sortByCount xs)).trans (List.Perm.cons x ih)

theorem mem_sortByCount (z : String × Nat) : ∀ l : List (String × Nat),
    z ∈ sortByCount l ↔ z ∈ l := by
  intro l
  induction l with
  | nil => simp [sortByCount]
  | cons x xs ih =>
    simp only [sortByCount]
    rw [mem_insertByCount]
    simp only [List.mem_cons, ih]

/-- C9 counterexample, in two parts. First, with two equal-count impacts
arriving as B then A, the displayed tally at this size is A then B (the
grouping step sorts the keys alphabetically and numpy sorts two elements
stably), while the first-seen order is B then A: the tie order does not
follow first appearance. Second, a row with a non-null impact but a null
criterion yields no record, yet its impact is still counted: the tally is
a tally of the impact column of the table, not of the record sequence. -/
theorem c9_tie_and_tally_base_counterexample :
    ((impact_counts df_ties).map Prod.fst = ["A", "B"] ∧
     (impact_counts df_ties).all (fun q => q.2 == 1) = true ∧
     firstSeen (impactsOf df_ties) = ["B", "A"] ∧
     (["A", "B"] : List String) ≠ ["B", "A"]) ∧
    (create_tree_visualization df_keyless = [] ∧
     impact_counts df_keyless = [("C", 1)]) := by decide

/-- C9 (amended): the impact tally is a pure tally of the non-null impact
column of the input table, not of the builder record sequence: every
displayed pair is a present impact with its exact occurrence count, every
distinct impact is listed exactly once, and the display is sorted by
ascending count. The relative order of equal counts is deliberately not
stated: the source uses the default sort kind, which does not guarantee
one, and the counterexample shows it is in any case not the first-seen
order. -/
theorem c9_tally_sorted_by_count (df : Table) (p : String × Nat)
    (hp : p ∈ impact_counts df) :
    (p.1 ∈ impactsOf df ∧ p.2 = (impactsOf df).count p.1) ∧
    ((impact_counts df).map Prod.fst).Nodup ∧
    (impact_counts df).Pairwise (fun a b => a.2 ≤ b.2) := by
  refine ⟨?_, ?_, ?_⟩
  · have h1 : p ∈ groupbySize (impactsOf df) := (mem_sortByCount p _).mp hp
    rcases List.mem_map.mp h1 with ⟨k, hk, hkp⟩
    subst hkp
    exact ⟨(mem_sortedKeys k _).mp hk, rfl⟩
  · have hperm := (perm_sortByCount (groupbySize (impactsOf df))).map Prod.fst
    have hkeys : (groupbySize (impactsOf df)).map Prod.fst = sortedKeys (impactsOf df) := by
      rw [groupbySize, List.map_map]
      exact List.map_id _
    have hnodup : (sortedKeys (impactsOf df)).Nodup :=
      (sortedKeys_pairwise (impactsOf df)).imp (fun h => strLtP_ne h)
    exact (hperm.nodup_iff).mpr (hkeys ▸ hnodup)
  · exact pairwise_countLe_sortByCount _

/-- C9 witness: the pair A with count 1 of the concrete tied table is a
true tally entry. -/
theorem c9_tally_sorted_by_count_witness :
    (("A", 1) : String × Nat).1 ∈ impactsOf df_ties ∧
    (("A", 1) : String × Nat).2 = (impactsOf df_ties).count ("A", 1).1 :=
  (c9_tally_sorted_by_count df_ties ("A", 1) (by decide)).1

end CriteriaDashboard
